import Mathlib

/-!
Verification development for the LinkedIn post generator's preprocessing
pipeline (`preprocess.py`).

The embedding models:
- Python `str` values at two levels: `String` (Unicode scalar values, the
  only inhabitants of Lean `Char`) for the pipeline, and `List Nat` of raw
  code points (Python `str` may hold lone surrogates) for the text
  normalizer `clean_text`.
- JSON data (`json` / langchain `JsonOutputParser`) as the inductive
  `JsonValue`; Python dicts as insertion-ordered association lists with
  dict assignment/update semantics.
- Python exceptions as the inductive `PyErr`; fallible code returns
  `Except PyErr _`.
- The `logging` side channel as an explicit `List LogEntry` component of
  each result.
- The LLM capability boundary (`llm` / `chain.invoke`) as an oracle
  `String → String` from the formatted prompt to the raw response content,
  passed as a parameter; all theorems quantify over the oracle or fix a
  concrete one.
- File I/O of `process_posts` is out of scope: the pipeline is modelled
  from the parsed list of posts onwards (the spec's
  `enrich(rawPosts: sequence<RawPost>)`), but including the whole-function
  `except` wrapper that re-wraps any escaping error.
-/

/-- JSON values, as produced by parsing an LLM response. Numbers are
modelled as integers: no claim involves floating point. -/
inductive JsonValue where
  | null
  | b (v : Bool)
  | i (v : Int)
  | s (v : String)
  | arr (items : List JsonValue)
  | obj (fields : List (String × JsonValue))
  deriving Repr

/-- A Python dict with string keys, as an insertion-ordered association
list without duplicate keys (the operations below maintain that). -/
abbrev Dict := List (String × JsonValue)

/-- `d[key]` lookup (first matching key). -/
def dictGet? : Dict → String → Option JsonValue
  | [], _ => none
  | (k, v) :: rest, key => if k = key then some v else dictGet? rest key

/-- `key in d`. -/
def dictContains (d : Dict) (key : String) : Bool :=
  (dictGet? d key).isSome

/-- `d.get(key, default)`. -/
def dictGetD (d : Dict) (key : String) (default : JsonValue) : JsonValue :=
  (dictGet? d key).getD default

/-- `d[key] = v`: replace in place if the key exists, else append
(Python dicts preserve insertion order). -/
def dictSet : Dict → String → JsonValue → Dict
  | [], key, v => [(key, v)]
  | (k, w) :: rest, key, v =>
    if k = key then (key, v) :: rest else (k, w) :: dictSet rest key v

/-- `d.update(other)`: assign every key of `other`, in order. -/
def dictUpdate (d : Dict) (other : Dict) : Dict :=
  other.foldl (fun acc kv => dictSet acc kv.1 kv.2) d

mutual

/-- Structural (Python `==`) equality on JSON values. -/
def beqJson : JsonValue → JsonValue → Bool
  | .null, .null => true
  | .b x, .b y => x == y
  | .i x, .i y => x == y
  | .s x, .s y => x == y
  | .arr xs, .arr ys => beqJsonItems xs ys
  | .obj xs, .obj ys => beqJsonFields xs ys
  | _, _ => false

def beqJsonItems : List JsonValue → List JsonValue → Bool
  | [], [] => true
  | x :: xs, y :: ys => beqJson x y && beqJsonItems xs ys
  | _, _ => false

def beqJsonFields : List (String × JsonValue) → List (String × JsonValue) → Bool
  | [], [] => true
  | (k1, v1) :: xs, (k2, v2) :: ys => k1 == k2 && beqJson v1 v2 && beqJsonFields xs ys
  | _, _ => false

end

/-- Membership in a list up to `beqJson` (Python set membership). -/
def jsonMem (v : JsonValue) : List JsonValue → Bool
  | [] => false
  | x :: rest => beqJson x v || jsonMem v rest

/-- Python exceptions relevant to the pipeline, distinguished the way the
code distinguishes them (by class and message). -/
inductive PyErr where
  | keyError (key : String)
  | valueError (msg : String)
  | typeError (msg : String)
  | attributeError (msg : String)
  | unicodeEncodeError (msg : String)
  | outputParserException (msg : String)
  | exception (msg : String)
  deriving DecidableEq, Repr

/-- `str(e)` for an exception: `KeyError` shows its key quoted, the rest
show their message. -/
def pyStrErr : PyErr → String
  | .keyError k => "\x27" ++ k ++ "\x27"
  | .valueError m => m
  | .typeError m => m
  | .attributeError m => m
  | .unicodeEncodeError m => m
  | .outputParserException m => m
  | .exception m => m

mutual

/-- Python `repr` of a JSON value (used by `str` on containers). -/
def pyRepr : JsonValue → String
  | .null => "None"
  | .b true => "True"
  | .b false => "False"
  | .i n => toString n
  | .s v => "\x27" ++ v ++ "\x27"
  | .arr vs => "[" ++ pyReprItems vs ++ "]"
  | .obj fs => "\x7b" ++ pyReprFields fs ++ "\x7d"

def pyReprItems : List JsonValue → String
  | [] => ""
  | [v] => pyRepr v
  | v :: rest => pyRepr v ++ ", " ++ pyReprItems rest

def pyReprFields : List (String × JsonValue) → String
  | [] => ""
  | [(k, v)] => "\x27" ++ k ++ "\x27: " ++ pyRepr v
  | (k, v) :: rest => "\x27" ++ k ++ "\x27: " ++ pyRepr v ++ ", " ++ pyReprFields rest

end

/-- Python `str()` of a JSON value, as interpolated by an f-string. -/
def pyStr : JsonValue → String
  | .s v => v
  | v => pyRepr v

/-- Levels of the `logging` module used by the code. -/
inductive LogLevel where
  | info
  | warn
  | err
  deriving DecidableEq, Repr

/-- One record of the append-only diagnostic log. -/
structure LogEntry where
  level : LogLevel
  msg : String
  deriving DecidableEq, Repr

def mkLog (level : LogLevel) (msg : String) : LogEntry := ⟨level, msg⟩

def isErrorLog (e : LogEntry) : Bool := e.level == .err

/-! ## Text Normalizer (`clean_text`, `preprocess.py` lines 14-28) -/

/-- Characters stripped by Python `str.strip()` (Unicode whitespace, by
code point). -/
def isPySpace (c : Nat) : Bool :=
  c == 0x09 || c == 0x0A || c == 0x0B || c == 0x0C || c == 0x0D ||
  c == 0x1C || c == 0x1D || c == 0x1E || c == 0x1F || c == 0x20 ||
  c == 0x85 || c == 0xA0 || c == 0x1680 ||
  (0x2000 ≤ c && c ≤ 0x200A) ||
  c == 0x2028 || c == 0x2029 || c == 0x202F || c == 0x205F || c == 0x3000

/-- The character class kept by
`re.sub(r"[^\x20-\x7E -￿඀-෿]", " ", text)`:
printable ASCII, U+00A0-U+FFFF, and the (subsumed) Sinhala block. -/
def allowedChar (c : Nat) : Bool :=
  (0x20 ≤ c && c ≤ 0x7E) || (0xA0 ≤ c && c ≤ 0xFFFF) || (0xD80 ≤ c && c ≤ 0xDFF)

/-- A code point the UTF-8 codec can encode: any Unicode scalar value
(surrogates U+D800-U+DFFF cannot be encoded). -/
def utf8Encodable (c : Nat) : Bool :=
  c < 0x110000 && !(0xD800 ≤ c && c ≤ 0xDFFF)

/-- `text.encode("utf-8", errors=...).decode("utf-8")` over raw code
points: per character, an encodable character passes through; an
unencodable one is dropped under `errors="ignore"` (`ignoreErrors = true`)
and raises `UnicodeEncodeError` under `errors="strict"`. -/
def pyEncodeDecodeUtf8 : Bool → List Nat → Except PyErr (List Nat)
  | _, [] => .ok []
  | ignoreErrors, c :: rest =>
    if utf8Encodable c then
      match pyEncodeDecodeUtf8 ignoreErrors rest with
      | .ok r => .ok (c :: r)
      | .error e => .error e
    else if ignoreErrors then pyEncodeDecodeUtf8 ignoreErrors rest
    else .error (.unicodeEncodeError "surrogates not allowed")

/-- `str.strip()`: drop leading and trailing characters satisfying `p`. -/
def stripEnds {α : Type} (p : α → Bool) (l : List α) : List α :=
  ((l.dropWhile p).reverse.dropWhile p).reverse

/-- The surrogate-stripping comprehension of the fallback branch
(`preprocess.py` line 25). -/
def stripSurrogates (cs : List Nat) : List Nat :=
  cs.filter (fun c => !(0xD800 ≤ c && c ≤ 0xDFFF))

/-- `clean_text` over raw code points (the full model of Python `str`,
which may hold lone surrogates). `nfkc` is the `unicodedata.normalize`
function of the fallback branch, left as a parameter: the branch is
unreachable (see the C10 theorem), so every result below holds for every
`nfkc`. -/
def clean_text_codepoints (nfkc : List Nat → List Nat) (cs : List Nat) : List Nat :=
  let encoded :=
    match pyEncodeDecodeUtf8 true cs with
    | .ok r => r
    | .error _ => stripSurrogates (nfkc cs)
  stripEnds isPySpace (encoded.map (fun c => if allowedChar c then c else 0x20))

def charPySpace (c : Char) : Bool := isPySpace c.toNat

/-- `clean_text` over `String` (Unicode scalar values), as used by the
pipeline. `encode("utf-8", errors="ignore")` keeps exactly the encodable
characters and never raises, so the fallback branch of the source is
dropped here; `clean_text_codepoints` keeps it and the C10 theorem shows
it is unreachable. -/
def clean_text (text : String) : String :=
  let encoded := text.data.filter (fun c => utf8Encodable c.toNat)
  String.mk (stripEnds charPySpace
    (encoded.map (fun c => if allowedChar c.toNat then c else ' ')))

/-- `clean_metadata` (`preprocess.py` lines 31-43): clean string values,
clean list values element-wise on their string items, pass the rest. -/
def clean_metadata (metadata : Dict) : Dict :=
  metadata.map (fun kv =>
    (kv.1,
      match kv.2 with
      | .s v => .s (clean_text v)
      | .arr items =>
        .arr (items.map (fun item =>
          match item with
          | .s v => .s (clean_text v)
          | other => other))
      | other => other))

/-- `clean_metadata` applied to a parsed JSON value: Python raises
`AttributeError` when the argument is not a dict (`.items()` missing). -/
def clean_metadata_value : JsonValue → Except PyErr Dict
  | .obj fields => .ok (clean_metadata fields)
  | _ => .error (.attributeError "object has no attribute items")

/-! ## Brace extraction (`extract_json_from_response`, lines 46-55) -/

def lbrace : Char := Char.ofNat 123

def rbrace : Char := Char.ofNat 125

def jsonQuote : Char := Char.ofNat 34

def jsonBackslash : Char := Char.ofNat 92

/-- The shortest run of characters up to and including the first `}`
(the non-greedy `.*?\}` part of the regex, with `re.DOTALL`). -/
def upToClose : List Char → Option (List Char)
  | [] => none
  | c :: rest =>
    if c == rbrace then some [rbrace] else (upToClose rest).map (c :: ·)

/-- `re.search(r"\{.*?\}", text, re.DOTALL)`: start at the first `{`,
stop at the first `}` after it. -/
def braceScan : List Char → Option (List Char)
  | [] => none
  | c :: rest =>
    if c == lbrace then (upToClose rest).map (lbrace :: ·) else braceScan rest

/-- `extract_json_from_response`: the matched substring, or
`ValueError` when the pattern does not match. -/
def extract_json_from_response (response_text : String) : Except PyErr String :=
  match braceScan response_text.data with
  | some cs => .ok (String.mk cs)
  | none => .error (.valueError "No valid JSON object found in response")

/-! ## JSON parsing (`json` / langchain `JsonOutputParser`)

A standard-library stand-in, not repository code: a recursive-descent
parser for objects, arrays, strings, integers, booleans and null.
`\uXXXX` escapes and floating-point numbers are not modelled (no claim
involves them; an input using them fails to parse here). -/

def isJsonWs (c : Char) : Bool :=
  c == ' ' || c == '\n' || c == '\t' || c == '\r'

def skipWs (cs : List Char) : List Char := cs.dropWhile isJsonWs

def unescapeChar (c : Char) : Option Char :=
  if c == jsonQuote then some jsonQuote
  else if c == jsonBackslash then some jsonBackslash
  else if c == '/' then some '/'
  else if c == 'n' then some '\n'
  else if c == 't' then some '\t'
  else if c == 'r' then some '\r'
  else if c == 'b' then some (Char.ofNat 8)
  else if c == 'f' then some (Char.ofNat 12)
  else none

/-- Body of a JSON string after the opening quote: content and rest. -/
def parseStringBody : List Char → Option (List Char × List Char)
  | [] => none
  | c :: rest =>
    if c == jsonQuote then some ([], rest)
    else if c == jsonBackslash then
      match rest with
      | [] => none
      | e :: rest2 =>
        match unescapeChar e with
        | none => none
        | some u =>
          match parseStringBody rest2 with
          | none => none
          | some (body, r) => some (u :: body, r)
    else
      match parseStringBody rest with
      | none => none
      | some (body, r) => some (c :: body, r)

def parseDigitsAux : List Char → Nat → Nat × List Char
  | [], acc => (acc, [])
  | c :: rest, acc =>
    if c.isDigit then parseDigitsAux rest (acc * 10 + (c.toNat - 48))
    else (acc, c :: rest)

def parseIntLit : List Char → Option (JsonValue × List Char)
  | [] => none
  | c :: rest =>
    if c == '-' then
      match rest with
      | d :: rest2 =>
        if d.isDigit then
          let (n, r) := parseDigitsAux rest2 (d.toNat - 48)
          some (.i (-(n : Int)), r)
        else none
      | [] => none
    else if c.isDigit then
      let (n, r) := parseDigitsAux rest (c.toNat - 48)
      some (.i (n : Int), r)
    else none

def expectLit (pat : List Char) (cs : List Char) : Option (List Char) :=
  if pat.isPrefixOf cs then some (cs.drop pat.length) else none

mutual

def parseValue : Nat → List Char → Option (JsonValue × List Char)
  | 0, _ => none
  | Nat.succ fuel, cs =>
    match skipWs cs with
    | [] => none
    | c :: rest =>
      if c == jsonQuote then
        match parseStringBody rest with
        | some (body, r) => some (.s (String.mk body), r)
        | none => none
      else if c == lbrace then
        match skipWs rest with
        | [] => none
        | d :: rest2 =>
          if d == rbrace then some (.obj [], rest2)
          else
            match parseMembers fuel (d :: rest2) [] with
            | some (fields, r) => some (.obj fields, r)
            | none => none
      else if c == '[' then
        match skipWs rest with
        | [] => none
        | d :: rest2 =>
          if d == ']' then some (.arr [], rest2)
          else
            match parseElements fuel (d :: rest2) [] with
            | some (items, r) => some (.arr items, r)
            | none => none
      else if c == 't' then (expectLit ['r', 'u', 'e'] rest).map (fun r => (.b true, r))
      else if c == 'f' then (expectLit ['a', 'l', 's', 'e'] rest).map (fun r => (.b false, r))
      else if c == 'n' then (expectLit ['u', 'l', 'l'] rest).map (fun r => (.null, r))
      else parseIntLit (c :: rest)

def parseMembers : Nat → List Char → Dict → Option (Dict × List Char)
  | 0, _, _ => none
  | Nat.succ fuel, cs, acc =>
    match skipWs cs with
    | [] => none
    | c :: rest =>
      if c == jsonQuote then
        match parseStringBody rest with
        | none => none
        | some (key, r1) =>
          match skipWs r1 with
          | ':' :: r2 =>
            match parseValue fuel r2 with
            | none => none
            | some (v, r3) =>
              let acc2 := dictSet acc (String.mk key) v
              match skipWs r3 with
              | [] => none
              | d :: r4 =>
                if d == ',' then parseMembers fuel r4 acc2
                else if d == rbrace then some (acc2, r4)
                else none
          | _ => none
      else none

def parseElements : Nat → List Char → List JsonValue → Option (List JsonValue × List Char)
  | 0, _, _ => none
  | Nat.succ fuel, cs, acc =>
    match parseValue fuel cs with
    | none => none
    | some (v, r1) =>
      let acc2 := acc ++ [v]
      match skipWs r1 with
      | [] => none
      | d :: r2 =>
        if d == ',' then parseElements fuel r2 acc2
        else if d == ']' then some (acc2, r2)
        else none

end

/-- `JsonOutputParser().parse(json_str)`: parse the whole string as one
JSON document; raises `OutputParserException` on failure. -/
def parse_json (s : String) : Except PyErr JsonValue :=
  match parseValue (s.data.length + 1) s.data with
  | some (v, rest) =>
    if (skipWs rest).isEmpty then .ok v
    else .error (.outputParserException "Invalid json output")
  | none => .error (.outputParserException "Invalid json output")

/-! ## Metadata Extractor (`extract_metadata`, lines 116-151) -/

/-- The instruction prompt of `extract_metadata` with `{post}` filled in
(PromptTemplate rendering; `{{`/`}}` render as braces). -/
def metadata_prompt (post : String) : String :=
  "\n    You are given a LinkedIn post. You need to extract number of lines, language of the post, and tags.\n    1. Return ONLY a valid JSON object. Do NOT include any preamble, explanation, or additional text.\n    2. JSON object must have exactly three keys: line_count (integer), language (string), tags (array of strings).\n    3. tags is an array of up to two text tags, in title case, without emojis or special characters.\n    4. Language must be \"English\" or \"Sinhala\" (Sinhala is the language used in Sri Lanka, often mixed with English).\n    5. Avoid using emojis or special characters in the output.\n    6. Ensure line_count is accurate based on newline characters (\n).\n\n    Example output: \x7b\"line_count\": 2, \"language\": \"English\", \"tags\": [\"Job Search\", \"Motivation\"]\x7d\n\n    Here is the actual post:  \n    "
  ++ post ++ "\n    "

/-- Validation of the parsed extraction result (`preprocess.py` lines
141-144): must be a dict holding `line_count`, `language` and `tags`,
and `language` must be the string `English` or `Sinhala`; on success the
value is returned unmodified. -/
def validate_metadata (res : JsonValue) : Except PyErr JsonValue :=
  match res with
  | .obj fields =>
    if dictContains fields "line_count" && dictContains fields "language" &&
        dictContains fields "tags" then
      let lang := dictGetD fields "language" .null
      if beqJson lang (.s "English") || beqJson lang (.s "Sinhala") then
        .ok (.obj fields)
      else
        .error (.valueError ("Invalid language \x27" ++ pyStr lang ++ "\x27 returned by LLM."))
    else .error (.valueError "Invalid metadata format returned by LLM.")
  | _ => .error (.valueError "Invalid metadata format returned by LLM.")

/-- Response post-processing of `extract_metadata` (lines 137-151):
brace extraction, JSON parse, validation, with the source's two `except`
clauses: an `OutputParserException` is logged and re-raised as
`OutputParserException`, any other failure is logged and re-raised as a
generic `Exception` (here only `parse_json` raises
`OutputParserException`, and `extract_json_from_response` / validation
raise `ValueError`). -/
def extract_metadata_response (content : String) : List LogEntry × Except PyErr JsonValue :=
  match extract_json_from_response content with
  | .error e =>
    let msg := "Error extracting metadata: " ++ pyStrErr e
    ([mkLog .err msg], .error (.exception msg))
  | .ok jsonStr =>
    match parse_json jsonStr with
    | .error e =>
      let msg := "Failed to parse LLM response: " ++ pyStrErr e
      ([mkLog .err msg], .error (.outputParserException msg))
    | .ok res =>
      match validate_metadata res with
      | .error e =>
        let msg := "Error extracting metadata: " ++ pyStrErr e
        ([mkLog .err msg], .error (.exception msg))
      | .ok r => ([], .ok r)

/-- `extract_metadata(post)` with the LLM as an oracle from the formatted
prompt to the raw response content. -/
def extract_metadata (llm : String → String) (post : String) :
    List LogEntry × Except PyErr JsonValue :=
  extract_metadata_response (llm (metadata_prompt post))

/-! ## Tag Unifier (`get_unified_tags`, lines 154-194) -/

/-- The instruction prompt of `get_unified_tags` with `{tags}` filled in. -/
def unify_prompt (tags : String) : String :=
  "\n    You are given a comma-separated list of tags. You need to unify the tags with the following requirements:\n    1. Tags are unified and merged to create a shorter list.\n       Example 1: \"Jobseekers\", \"Job Hunting\" merge into \"Job Search\".\n       Example 2: \"Motivation\", \"Inspiration\", \"Drive\" map to \"Motivation\".\n       Example 3: \"Personal Growth\", \"Personal Development\", \"Self Improvement\" map to \"Self Improvement\".\n       Example 4: \"Scam Alert\", \"Job Scam\" map to \"Scams\".\n    2. Each tag must follow title case convention (e.g., \"Motivation\", \"Job Search\").\n    3. Return ONLY a valid JSON object, with no preamble, explanation, or additional text.\n    4. Output must be a JSON object mapping original tags to unified tags.\n       Example: \x7b\"Jobseekers\": \"Job Search\", \"Job Hunting\": \"Job Search\", \"Motivation\": \"Motivation\"\x7d\n    5. Avoid using emojis or special characters in the output.\n\n    Here is the list of tags: \n    "
  ++ tags ++ "\n    "

/-- Iterating a Python value (`for x in v`): lists yield their items,
strings their characters, dicts their keys; the rest raise `TypeError`. -/
def pyIterate : JsonValue → Except PyErr (List JsonValue)
  | .arr items => .ok items
  | .s v => .ok (v.data.map (fun c => .s (String.mk [c])))
  | .obj fields => .ok (fields.map (fun kv => .s kv.1))
  | _ => .error (.typeError "object is not iterable")

/-- Add to an ordered model of a Python `set` of strings. -/
def insertNewStr (acc : List String) (s : String) : List String :=
  if acc.contains s then acc else acc ++ [s]

/-- `unique_tags.update(clean_text(tag) for tag in tags)`: each tag must
be a string (`clean_text` calls `.encode`, absent on other types). -/
def cleanTagsFold : List JsonValue → List String → Except PyErr (List String)
  | [], acc => .ok acc
  | item :: rest, acc =>
    match item with
    | .s t => cleanTagsFold rest (insertNewStr acc (clean_text t))
    | _ => .error (.attributeError "object has no attribute encode")

/-- Lines 155-158: the set of cleaned tags over all posts, in first-seen
order (a deterministic stand-in for Python set iteration; no claim
depends on the order). -/
def collect_unique_tags : List Dict → List String → Except PyErr (List String)
  | [], acc => .ok acc
  | post :: rest, acc =>
    match pyIterate (dictGetD post "tags" (.arr [])) with
    | .error e => .error e
    | .ok items =>
      match cleanTagsFold items acc with
      | .error e => .error e
      | .ok acc2 => collect_unique_tags rest acc2

/-- `",".join(unique_tags)`. -/
def joinComma : List String → String
  | [] => ""
  | [x] => x
  | x :: rest => x ++ "," ++ joinComma rest

/-- `get_unified_tags(posts_with_metadata)`: collect the tag vocabulary
(outside the `try`: a failure there propagates raw), invoke the oracle,
apply brace extraction, JSON parse and the is-a-dict validation, with the
same two `except` clauses as `extract_metadata`. -/
def get_unified_tags (llm : String → String) (posts_with_metadata : List Dict) :
    List LogEntry × Except PyErr Dict :=
  match collect_unique_tags posts_with_metadata [] with
  | .error e => ([], .error e)
  | .ok uniqueTags =>
    let content := llm (unify_prompt (clean_text (joinComma uniqueTags)))
    match extract_json_from_response content with
    | .error e =>
      let msg := "Error unifying tags: " ++ pyStrErr e
      ([mkLog .err msg], .error (.exception msg))
    | .ok js =>
      match parse_json js with
      | .error e =>
        let msg := "Failed to parse tag unification response: " ++ pyStrErr e
        ([mkLog .err msg], .error (.outputParserException msg))
      | .ok res =>
        match res with
        | .obj fields => ([], .ok fields)
        | _ =>
          let msg := "Error unifying tags: Invalid tag unification format returned by LLM."
          ([mkLog .err msg], .error (.exception msg))

/-! ## Corpus Enrichment Pipeline (`process_posts`, lines 58-113) -/

/-- `post["text"][:100]` as interpolated into a log f-string: strings and
lists are sliceable, everything else raises `TypeError`. -/
def excerpt100 : JsonValue → Except PyErr String
  | .s v => .ok (String.mk (v.data.take 100))
  | .arr vs => .ok (pyRepr (.arr (vs.take 100)))
  | _ => .error (.typeError "object is not subscriptable")

/-- The message of the per-post error log entry (line 81). -/
def errorEntryMsg (i : Nat) (ex : String) (e : PyErr) : String :=
  "Error processing post " ++ Nat.repr i ++ ": " ++ ex ++ "... | Error: " ++ pyStrErr e

/-- `cleaned_unified_tags.get(tag, tag)`: a string tag is looked up in
the map (defaulting to itself); non-string hashable tags are never keys
of the string-keyed map and default to themselves; unhashable tags raise
`TypeError`. -/
def tag_lookup (cm : Dict) (tag : JsonValue) : Except PyErr JsonValue :=
  match tag with
  | .s t => .ok ((dictGet? cm t).getD (.s t))
  | .arr _ => .error (.typeError "unhashable type: list")
  | .obj _ => .error (.typeError "unhashable type: dict")
  | other => .ok other

/-- Adding a mapped tag to the set comprehension of line 96: unhashable
values raise `TypeError`. -/
def setInsert (acc : List JsonValue) (v : JsonValue) : Except PyErr (List JsonValue) :=
  match v with
  | .arr _ => .error (.typeError "unhashable type: list")
  | .obj _ => .error (.typeError "unhashable type: dict")
  | _ => .ok (if jsonMem v acc then acc else acc ++ [v])

def rewrite_tags_fold (cm : Dict) : List JsonValue → List JsonValue → Except PyErr (List JsonValue)
  | [], acc => .ok acc
  | t :: rest, acc =>
    match tag_lookup cm t with
    | .error e => .error e
    | .ok v =>
      match setInsert acc v with
      | .error e => .error e
      | .ok acc2 => rewrite_tags_fold cm rest acc2

/-- Lines 95-97 for one post: map each current tag through the cleaned
unified-tag map (identity default), deduplicate (set semantics, first-seen
order as the deterministic stand-in), and assign the result to `tags`. -/
def rewrite_tags_post (cm : Dict) (post : Dict) : Except PyErr Dict :=
  match pyIterate (dictGetD post "tags" (.arr [])) with
  | .error e => .error e
  | .ok items =>
    match rewrite_tags_fold cm items [] with
    | .error e => .error e
    | .ok newTags => .ok (dictSet post "tags" (.arr newTags))

/-- Lines 76-78: copy the original post, overwrite `text` with the
cleaned text, merge the cleaned metadata. -/
def merge_post (post : Dict) (cleaned_post_text : String) (cleaned_metadata : Dict) : Dict :=
  dictUpdate (dictSet post "text" (.s cleaned_post_text)) cleaned_metadata

/-- The body of the per-post `try` (lines 64-79). The f-string of the
`logging.info` call at line 65 evaluates `post["text"][:100]` before the
membership check at line 66, so a missing or unsliceable `text` raises
here; the skip branch of lines 66-69 is kept although it cannot then
trigger. Returns the accumulated log entries and either an exception, a
skip (`none`) or the merged post. -/
def processOneInner (llm : String → String) (i : Nat) (post : Dict) :
    List LogEntry × Except PyErr (Option Dict) :=
  match dictGet? post "text" with
  | none => ([], .error (.keyError "text"))
  | some tv =>
    match excerpt100 tv with
    | .error e => ([], .error e)
    | .ok ex =>
      let l0 := [mkLog .info ("Processing post " ++ Nat.repr i ++ ": " ++ ex ++ "...")]
      if !dictContains post "text" then
        (l0 ++ [mkLog .warn ("Post " ++ Nat.repr i ++ " missing \x27text\x27 field. Skipping.")],
         .ok none)
      else
        match tv with
        | .s rawText =>
          let cleaned := clean_text rawText
          match extract_metadata llm cleaned with
          | (mlogs, .error e) => (l0 ++ mlogs, .error e)
          | (mlogs, .ok metadata) =>
            match clean_metadata_value metadata with
            | .error e => (l0 ++ mlogs, .error e)
            | .ok cmd => (l0 ++ mlogs, .ok (some (merge_post post cleaned cmd)))
        | _ => (l0, .error (.attributeError "object has no attribute encode"))

/-- One iteration of the per-post loop, with the `except` handler of
lines 80-84: the handler's own f-string evaluates `post["text"][:100]`
again, so it raises (rather than logging and continuing) when `text` is
missing or unsliceable; otherwise it logs the error and skips the post. -/
def processOne (llm : String → String) (i : Nat) (post : Dict) :
    List LogEntry × Except PyErr (Option Dict) :=
  match processOneInner llm i post with
  | (logs, .ok r) => (logs, .ok r)
  | (logs, .error e) =>
    match dictGet? post "text" with
    | none => (logs, .error (.keyError "text"))
    | some tv =>
      match excerpt100 tv with
      | .error e2 => (logs, .error e2)
      | .ok ex => (logs ++ [mkLog .err (errorEntryMsg i ex e)], .ok none)

/-- The `for i, post in enumerate(posts)` loop (lines 63-84), starting at
index `i`: accumulates logs and surviving posts, short-circuiting when an
exception escapes an iteration. -/
def processLoop (llm : String → String) : Nat → List Dict → List LogEntry × Except PyErr (List Dict)
  | _, [] => ([], .ok [])
  | i, post :: rest =>
    match processOne llm i post with
    | (lg, .error e) => (lg, .error e)
    | (lg, .ok none) =>
      match processLoop llm (i + 1) rest with
      | (lgs, r) => (lg ++ lgs, r)
    | (lg, .ok (some d)) =>
      match processLoop llm (i + 1) rest with
      | (lgs, .error e) => (lg ++ lgs, .error e)
      | (lgs, .ok ds) => (lg ++ lgs, .ok (d :: ds))

/-- The explicit for-loop applying `rewrite_tags_post` to every enriched
post (lines 94-97). -/
def mapExceptDict (f : Dict → Except PyErr Dict) : List Dict → Except PyErr (List Dict)
  | [] => .ok []
  | d :: rest =>
    match f d with
    | .error e => .error e
    | .ok d2 =>
      match mapExceptDict f rest with
      | .error e => .error e
      | .ok rest2 => .ok (d2 :: rest2)

/-- `process_posts` from the parsed post list onwards (file reading and
writing are out of scope): the per-post loop, the zero-survivors check
(line 86-89), tag unification and rewriting (lines 91-97), and the outer
`except Exception` clause (lines 111-113) that re-wraps any escaping
error as `Exception("Error processing posts: " + str(e))`. -/
def process_posts (llmExtract llmUnify : String → String) (posts : List Dict) :
    List LogEntry × Except PyErr (List Dict) :=
  match processLoop llmExtract 0 posts with
  | (logs, .error e) =>
    (logs, .error (.exception ("Error processing posts: " ++ pyStrErr e)))
  | (logs, .ok enriched) =>
    if enriched.isEmpty then
      (logs ++ [mkLog .err "No posts were successfully processed."],
       .error (.exception "Error processing posts: No posts were successfully processed."))
    else
      match get_unified_tags llmUnify enriched with
      | (ulogs, .error e) =>
        (logs ++ ulogs, .error (.exception ("Error processing posts: " ++ pyStrErr e)))
      | (ulogs, .ok m) =>
        match mapExceptDict (rewrite_tags_post (clean_metadata m)) enriched with
        | .error e =>
          (logs ++ ulogs, .error (.exception ("Error processing posts: " ++ pyStrErr e)))
        | .ok finalPosts => (logs ++ ulogs, .ok finalPosts)

/-- The spec's `EmptyResultError` as it escapes `process_posts`: the
`ValueError("No posts were successfully processed.")` of line 89,
re-wrapped by the outer `except Exception` clause. Its message is raised
nowhere else, so the kind is identifiable at the call boundary. -/
def EmptyResultError : PyErr :=
  .exception "Error processing posts: No posts were successfully processed."

/-- An error-level log entry whose message is the per-post error record
for index `k` (the entry the loop writes when it skips post `k`). -/
def referencesIdx (k : Nat) (e : LogEntry) : Bool :=
  isErrorLog e && List.isPrefixOf ("Error processing post " ++ Nat.repr k ++ ":").data e.msg.data

/-! ## Spec-side predicates and concrete scenario data -/

/-- The spec's validity condition on a parsed extraction result: a
mapping holding the three required keys whose `language` is exactly
`"English"` or `"Sinhala"`. -/
def MetadataValid (res : JsonValue) : Prop :=
  ∃ fields, res = .obj fields ∧
    dictContains fields "line_count" = true ∧
    dictContains fields "language" = true ∧
    dictContains fields "tags" = true ∧
    (dictGet? fields "language" = some (.s "English") ∨
      dictGet? fields "language" = some (.s "Sinhala"))

/-- The spec's `ValidationError` kind: one of the two `ValueError`s
raised by the validation step of `extract_metadata`. -/
def IsValidationError (e : PyErr) : Prop :=
  e = .valueError "Invalid metadata format returned by LLM." ∨
  ∃ lang, e = .valueError ("Invalid language \x27" ++ lang ++ "\x27 returned by LLM.")

/-- The spec's worked extraction-response example. -/
def sureResp : String :=
  "Sure! \x7b\"line_count\": 3, \"language\": \"English\", \"tags\": [\"Motivation\"]\x7d Hope that helps!"

/-- A raw post holding only a `text` field. -/
def mkTextPost (t : String) : Dict := [("text", .s t)]

/-- A well-formed extraction response used by the batch scenarios. -/
def goodResp : String :=
  "\x7b\"line_count\": 1, \"language\": \"English\", \"tags\": [\"General\"]\x7d"

/-- Extraction oracle of the 5-post scenario: post #3 gets a response
with no JSON object, every other post a well-formed one. -/
def llmE2 : String → String :=
  fun s => if s = metadata_prompt "Post three" then "garbage with no json" else goodResp

/-- Unification oracle of the 5-post scenario. -/
def llmU2 : String → String := fun _ => "\x7b\"General\": \"General\"\x7d"

def c2pre : List Dict := [mkTextPost "Post zero", mkTextPost "Post one", mkTextPost "Post two"]

def c2p : Dict := mkTextPost "Post three"

def c2suf : List Dict := [mkTextPost "Post four"]

/-- The enriched form of a post of the 5-post scenario. -/
def enrichedPost (t : String) : Dict :=
  [("text", .s t), ("line_count", .i 1), ("language", .s "English"),
   ("tags", .arr [.s "General"])]

def c2d1 : List Dict := [enrichedPost "Post zero", enrichedPost "Post one", enrichedPost "Post two"]

def c2d2 : List Dict := [enrichedPost "Post four"]

def c2lg : List LogEntry :=
  [mkLog .info "Processing post 3: Post three...",
   mkLog .err "Error extracting metadata: No valid JSON object found in response"]

def c2l1 : List LogEntry :=
  [mkLog .info "Processing post 0: Post zero...",
   mkLog .info "Processing post 1: Post one...",
   mkLog .info "Processing post 2: Post two..."]

def c2l2 : List LogEntry := [mkLog .info "Processing post 4: Post four..."]

def c2m : Dict := [("General", .s "General")]

/-- Extraction oracle of the frame-condition scenario: the response
passes validation (it has the three required keys) but carries the extra
key `note`. -/
def llmE8 : String → String :=
  fun _ => "\x7b\"line_count\": 1, \"language\": \"English\", \"tags\": [\"Greetings\"], \"note\": \"clobbered\"\x7d"

def llmU8 : String → String := fun _ => "\x7b\"Greetings\": \"Greetings\"\x7d"

/-- A post carrying a pass-through field `note`. -/
def c8post : Dict := [("text", .s "Hello"), ("note", .s "original")]

/-- A cleaned metadata dict holding exactly the three expected keys. -/
def c8cmd : Dict :=
  [("line_count", .i 1), ("language", .s "English"), ("tags", .arr [.s "Greetings"])]

/-- Unification oracle returning a mapping whose value `"B"` is itself a
key mapped to `"C"` (a shape the code accepts). -/
def llmU9 : String → String := fun _ => "\x7b\"A\": \"B\", \"B\": \"C\"\x7d"

def c9map : Dict := [("A", .s "B"), ("B", .s "C")]

/-- A metadata dict accepted by validation (language `Sinhala`). -/
def c5valid : Dict := [("line_count", .i 2), ("language", .s "Sinhala"), ("tags", .arr [])]

/-! ## General list lemmas -/

theorem dropWhile_self_idem {α : Type} (p : α → Bool) (l : List α) :
    (l.dropWhile p).dropWhile p = l.dropWhile p := by
  induction l with
  | nil => rfl
  | cons a t ih =>
    by_cases h : p a = true
    · simp [List.dropWhile_cons, h, ih]
    · simp [List.dropWhile_cons, h]

theorem dropWhile_eq_self_of_prefix {α : Type} (p : α → Bool) {l l' : List α}
    (hpre : l' <+: l) (hl : l.dropWhile p = l) : l'.dropWhile p = l' := by
  obtain ⟨r, rfl⟩ := hpre
  cases l' with
  | nil => rfl
  | cons a t =>
    have ha : p a = false := by
      by_contra hc
      rw [Bool.not_eq_false] at hc
      rw [List.cons_append, List.dropWhile_cons, if_pos hc] at hl
      have := congrArg List.length hl
      have hle := ((List.dropWhile_sublist p).length_le :
        ((t ++ r).dropWhile p).length ≤ (t ++ r).length)
      simp [List.length_append] at this hle
      omega
    simp [List.dropWhile_cons, ha]

theorem stripEnds_prefix_dropWhile {α : Type} (p : α → Bool) (l : List α) :
    stripEnds p l <+: l.dropWhile p := by
  unfold stripEnds
  have h1 : ((l.dropWhile p).reverse.dropWhile p) <:+ (l.dropWhile p).reverse :=
    List.dropWhile_suffix p
  have h2 := List.reverse_prefix.mpr h1
  simpa using h2

theorem dropWhile_stripEnds {α : Type} (p : α → Bool) (l : List α) :
    (stripEnds p l).dropWhile p = stripEnds p l :=
  dropWhile_eq_self_of_prefix p (stripEnds_prefix_dropWhile p l) (dropWhile_self_idem p l)

theorem reverse_stripEnds_dropWhile {α : Type} (p : α → Bool) (l : List α) :
    (stripEnds p l).reverse.dropWhile p = (stripEnds p l).reverse := by
  unfold stripEnds
  rw [List.reverse_reverse]
  exact dropWhile_self_idem p _

theorem stripEnds_idem {α : Type} (p : α → Bool) (l : List α) :
    stripEnds p (stripEnds p l) = stripEnds p l := by
  conv_lhs => rw [stripEnds, dropWhile_stripEnds, reverse_stripEnds_dropWhile,
    List.reverse_reverse]

theorem mem_of_mem_stripEnds {α : Type} (p : α → Bool) {l : List α} {a : α}
    (h : a ∈ stripEnds p l) : a ∈ l := by
  have h1 : a ∈ l.dropWhile p := (stripEnds_prefix_dropWhile p l).sublist.subset h
  exact (List.dropWhile_sublist p).subset h1

theorem head_not_p_of_dropWhile_self {α : Type} (p : α → Bool) {l : List α} {a : α}
    (hl : l.dropWhile p = l) (ha : l.head? = some a) : p a = false := by
  cases l with
  | nil => simp at ha
  | cons b t =>
    have hb : a = b := by simpa using ha.symm
    subst hb
    by_contra hc
    rw [Bool.not_eq_false] at hc
    rw [List.dropWhile_cons, if_pos hc] at hl
    have := congrArg List.length hl
    have hle := ((List.dropWhile_sublist p).length_le : (t.dropWhile p).length ≤ t.length)
    simp at this
    omega

theorem stripEnds_head {α : Type} (p : α → Bool) (l : List α) {a : α}
    (h : (stripEnds p l).head? = some a) : p a = false :=
  head_not_p_of_dropWhile_self p (dropWhile_stripEnds p l) h

theorem stripEnds_getLast {α : Type} (p : α → Bool) (l : List α) {a : α}
    (h : (stripEnds p l).getLast? = some a) : p a = false := by
  have h2 : (stripEnds p l).reverse.head? = some a := by
    rw [List.head?_reverse]; exact h
  exact head_not_p_of_dropWhile_self p (reverse_stripEnds_dropWhile p l) h2

theorem map_eq_self_of {α : Type} (f : α → α) (l : List α) (h : ∀ a ∈ l, f a = a) :
    l.map f = l := by
  induction l with
  | nil => rfl
  | cons a t ih => simp [h a (by simp), ih (fun b hb => h b (by simp [hb]))]

theorem strData_append (a b : String) : (a ++ b).data = a.data ++ b.data := by
  cases a; cases b; rfl

/-! ## Text Normalizer lemmas -/

theorem encode_ignore_total (cs : List Nat) :
    pyEncodeDecodeUtf8 true cs = .ok (cs.filter utf8Encodable) := by
  induction cs with
  | nil => rfl
  | cons c rest ih =>
    by_cases h : utf8Encodable c = true
    · simp [pyEncodeDecodeUtf8, h, ih, List.filter_cons]
    · simp [pyEncodeDecodeUtf8, h, ih, List.filter_cons]

theorem clean_codepoints_eq (f : List Nat → List Nat) (x : List Nat) :
    clean_text_codepoints f x =
      stripEnds isPySpace
        ((x.filter utf8Encodable).map (fun c => if allowedChar c then c else 0x20)) := by
  simp only [clean_text_codepoints, encode_ignore_total]

theorem mem_clean_codepoints {f : List Nat → List Nat} {x : List Nat} {c : Nat}
    (h : c ∈ clean_text_codepoints f x) : allowedChar c = true ∧ utf8Encodable c = true := by
  rw [clean_codepoints_eq] at h
  have hc := mem_of_mem_stripEnds _ h
  obtain ⟨d, hd, rfl⟩ := List.mem_map.mp hc
  by_cases had : allowedChar d = true
  · rw [if_pos had]
    exact ⟨had, (List.mem_filter.mp hd).2⟩
  · rw [if_neg had]
    exact ⟨by decide, by decide⟩

theorem clean_codepoints_idem (f : List Nat → List Nat) (x : List Nat) :
    clean_text_codepoints f (clean_text_codepoints f x) = clean_text_codepoints f x := by
  have hfil : (clean_text_codepoints f x).filter utf8Encodable = clean_text_codepoints f x :=
    List.filter_eq_self.mpr (fun a ha => (mem_clean_codepoints ha).2)
  have hmap : (clean_text_codepoints f x).map (fun c => if allowedChar c then c else 0x20)
      = clean_text_codepoints f x :=
    map_eq_self_of _ _ (fun a ha => if_pos (mem_clean_codepoints ha).1)
  conv_lhs => rw [clean_codepoints_eq, hfil, hmap, clean_codepoints_eq f x]
  rw [stripEnds_idem]
  exact (clean_codepoints_eq f x).symm

theorem char_utf8Encodable (c : Char) : utf8Encodable c.toNat = true := by
  have h := c.valid
  rcases h with h | h <;>
    simp only [utf8Encodable, Bool.and_eq_true, Bool.not_eq_true', Bool.and_eq_false_iff,
      decide_eq_true_eq, decide_eq_false_iff_not, Char.toNat] <;> omega

theorem clean_text_eq (s : String) :
    clean_text s = String.mk (stripEnds charPySpace
      (s.data.map (fun c => if allowedChar c.toNat then c else ' '))) := by
  simp only [clean_text]
  rw [List.filter_eq_self.mpr (fun a _ => char_utf8Encodable a)]

theorem mem_clean_text {s : String} {c : Char} (h : c ∈ (clean_text s).data) :
    (if allowedChar c.toNat then c else ' ') = c := by
  rw [clean_text_eq] at h
  have h' : c ∈ stripEnds charPySpace
      (s.data.map (fun c => if allowedChar c.toNat then c else ' ')) := h
  obtain ⟨d, hd, rfl⟩ := List.mem_map.mp (mem_of_mem_stripEnds _ h')
  by_cases had : allowedChar d.toNat = true
  · rw [if_pos had, if_pos had]
  · rw [if_neg had]
    decide

theorem clean_text_idem (s : String) : clean_text (clean_text s) = clean_text s := by
  have hmap : (clean_text s).data.map (fun c => if allowedChar c.toNat then c else ' ')
      = (clean_text s).data :=
    map_eq_self_of _ _ (fun a ha => mem_clean_text ha)
  rw [clean_text_eq (clean_text s), hmap, clean_text_eq s]
  exact congrArg String.mk (stripEnds_idem _ _)

/-! ## Claim theorems -/

/-- C6: `clean` is idempotent: for every input (over raw code points with
any normalization function `f` for the dead fallback branch, and over
`String` as used by the pipeline), cleaning twice equals cleaning once. -/
theorem clean_is_idempotent :
    (∀ (f : List Nat → List Nat) (x : List Nat),
        clean_text_codepoints f (clean_text_codepoints f x) = clean_text_codepoints f x) ∧
    (∀ s : String, clean_text (clean_text s) = clean_text s) :=
  ⟨clean_codepoints_idem, clean_text_idem⟩

/-- C7: every character of `clean`'s output lies in
{0x20-0x7E} ∪ {U+00A0-U+FFFF} ∪ {U+0D80-U+0DFF} ∪ {space}, and the
output has no leading or trailing whitespace. -/
theorem clean_output_character_set (f : List Nat → List Nat) (x : List Nat) :
    (∀ c ∈ clean_text_codepoints f x,
       (0x20 ≤ c ∧ c ≤ 0x7E) ∨ (0xA0 ≤ c ∧ c ≤ 0xFFFF) ∨ (0xD80 ≤ c ∧ c ≤ 0xDFF) ∨
         c = 0x20) ∧
    (∀ a, (clean_text_codepoints f x).head? = some a → isPySpace a = false) ∧
    (∀ a, (clean_text_codepoints f x).getLast? = some a → isPySpace a = false) := by
  refine ⟨?_, ?_, ?_⟩
  · intro c hc
    have h := (mem_clean_codepoints hc).1
    simp only [allowedChar, Bool.or_eq_true, Bool.and_eq_true, decide_eq_true_eq] at h
    omega
  · intro a ha
    rw [clean_codepoints_eq] at ha
    exact stripEnds_head _ _ ha
  · intro a ha
    rw [clean_codepoints_eq] at ha
    exact stripEnds_getLast _ _ ha

/-- C7 witness: instantiating the character-set theorem on the concrete
input [72, 0, 73], whose cleaned form is [72, 32, 73]. -/
theorem clean_output_character_set_witness :
    ((0x20 ≤ 72 ∧ 72 ≤ 0x7E) ∨ (0xA0 ≤ 72 ∧ 72 ≤ 0xFFFF) ∨ (0xD80 ≤ 72 ∧ 72 ≤ 0xDFF) ∨
       (72 : Nat) = 0x20) ∧
    isPySpace 72 = false ∧ isPySpace 73 = false :=
  ⟨(clean_output_character_set id [72, 0, 73]).1 72 (by decide),
   (clean_output_character_set id [72, 0, 73]).2.1 72 (by decide),
   (clean_output_character_set id [72, 0, 73]).2.2 73 (by decide)⟩

/-- C10: re-encoding with `errors="ignore"` never raises (it returns
exactly the encodable characters), so `clean_text` always takes the
primary path: its result does not depend on the normalization function
of the fallback branch, which never executes. -/
theorem clean_fallback_unreachable :
    (∀ cs : List Nat, pyEncodeDecodeUtf8 true cs = .ok (cs.filter utf8Encodable)) ∧
    (∀ (cs : List Nat) (f g : List Nat → List Nat),
        clean_text_codepoints f cs = clean_text_codepoints g cs) :=
  ⟨encode_ignore_total, fun cs f g => by rw [clean_codepoints_eq, clean_codepoints_eq]⟩

/-- C3: whenever the per-post loop completes with zero surviving posts,
`process_posts` fails with `EmptyResultError` (that exact error value,
hence that kind and no other), after logging the empty-result message. -/
theorem zero_survivors_fail_empty_result (llmE llmU : String → String) (posts : List Dict)
    (logs : List LogEntry) (h : processLoop llmE 0 posts = (logs, .ok [])) :
    process_posts llmE llmU posts =
      (logs ++ [mkLog .err "No posts were successfully processed."], .error EmptyResultError) := by
  unfold process_posts
  rw [h]
  rfl

/-- C3 witness: `enrich([])` fails with `EmptyResultError`. -/
theorem zero_survivors_fail_empty_result_witness :
    process_posts (fun _ => "") (fun _ => "") [] =
      ([mkLog .err "No posts were successfully processed."], .error EmptyResultError) :=
  zero_survivors_fail_empty_result (fun _ => "") (fun _ => "") [] [] rfl

/-- C1: contrary to the claim, a post whose `text` field is absent is NOT
skipped with a log entry: the f-string of the `logging.info` call at line
65 raises `KeyError` before the membership check, the `except` handler's
own f-string raises `KeyError` again, and the run aborts with the generic
wrapped exception (nothing is logged) instead of proceeding to
`EmptyResultError`. -/
theorem missing_text_aborts_run :
    process_posts (fun _ => "") (fun _ => "") [([] : Dict)] =
      ([], .error (.exception "Error processing posts: \x27text\x27")) ∧
    PyErr.exception "Error processing posts: \x27text\x27" ≠ EmptyResultError :=
  ⟨rfl, by decide⟩

theorem upToClose_spec (b c : List Char) (hb : rbrace ∉ b) :
    upToClose (b ++ rbrace :: c) = some (b ++ [rbrace]) := by
  induction b with
  | nil => simp [upToClose]
  | cons x xs ih =>
    have hx : (x == rbrace) = false := by
      simp only [beq_eq_false_iff_ne, ne_eq]
      intro hxe
      exact hb (hxe ▸ List.mem_cons_self x xs)
    have hb2 : rbrace ∉ xs := fun hm => hb (List.mem_cons_of_mem x hm)
    simp [upToClose, hx, ih hb2]

theorem braceScan_spec (a b c : List Char) (ha : lbrace ∉ a) (hb : rbrace ∉ b) :
    braceScan (a ++ lbrace :: (b ++ rbrace :: c)) = some (lbrace :: (b ++ [rbrace])) := by
  induction a with
  | nil =>
    simp only [List.nil_append, braceScan, beq_self_eq_true, if_pos]
    rw [upToClose_spec b c hb]
    rfl
  | cons x xs ih =>
    have hx : (x == lbrace) = false := by
      simp only [beq_eq_false_iff_ne, ne_eq]
      intro hxe
      exact ha (hxe ▸ List.mem_cons_self x xs)
    have ha2 : lbrace ∉ xs := fun hm => ha (List.mem_cons_of_mem x hm)
    simp [braceScan, hx, ih ha2]

theorem upToClose_some_decomp {l m : List Char} (h : upToClose l = some m) :
    ∃ v w, l = v ++ rbrace :: w := by
  induction l generalizing m with
  | nil => simp [upToClose] at h
  | cons y ys ih =>
    by_cases hy : (y == rbrace) = true
    · have : y = rbrace := by simpa using hy
      exact ⟨[], ys, by simp [this]⟩
    · rw [upToClose, if_neg (by simp_all)] at h
      match hm : upToClose ys with
      | none => rw [hm] at h; simp at h
      | some m' =>
        obtain ⟨v, w, hvw⟩ := ih hm
        exact ⟨y :: v, w, by simp [hvw]⟩

theorem braceScan_some_decomp {l m : List Char} (h : braceScan l = some m) :
    ∃ u v w, l = u ++ lbrace :: (v ++ rbrace :: w) := by
  induction l generalizing m with
  | nil => simp [braceScan] at h
  | cons y ys ih =>
    by_cases hy : (y == lbrace) = true
    · have hye : y = lbrace := by simpa using hy
      rw [braceScan, if_pos hy] at h
      match hm : upToClose ys with
      | none => rw [hm] at h; simp at h
      | some m' =>
        obtain ⟨v, w, hvw⟩ := upToClose_some_decomp hm
        exact ⟨[], v, w, by simp [hye, hvw]⟩
    · rw [braceScan, if_neg (by simp_all)] at h
      obtain ⟨u, v, w, huvw⟩ := ih h
      exact ⟨y :: u, v, w, by simp [huvw]⟩

/-- C4: `extract_json_from_response` takes the first non-greedy
brace-delimited substring (first `\x7b`, then the first `\x7d` after it,
newlines included) and the pipeline parses it as JSON, tolerating
surrounding prose (shown on the spec's worked example); a response with
no such substring fails with the `ExtractionFormatError` `ValueError`. -/
theorem brace_extraction_correct :
    (∀ a b c : String, lbrace ∉ a.data → rbrace ∉ b.data →
        extract_json_from_response (a ++ "\x7b" ++ b ++ "\x7d" ++ c) =
          .ok ("\x7b" ++ b ++ "\x7d")) ∧
    ((do
        let j ← extract_json_from_response sureResp
        parse_json j) =
      .ok (.obj [("line_count", .i 3), ("language", .s "English"),
        ("tags", .arr [.s "Motivation"])])) ∧
    (∀ s : String, (¬ ∃ u v w : List Char, s.data = u ++ lbrace :: (v ++ rbrace :: w)) →
        extract_json_from_response s =
          .error (.valueError "No valid JSON object found in response")) := by
  refine ⟨?_, rfl, ?_⟩
  · intro a b c ha hb
    have hl : lbrace = Char.ofNat 123 := rfl
    have hr : rbrace = Char.ofNat 125 := rfl
    have hdata : (a ++ "\x7b" ++ b ++ "\x7d" ++ c).data
        = a.data ++ lbrace :: (b.data ++ rbrace :: c.data) := by
      simp only [strData_append, hl, hr]
      simp [List.append_assoc]
    unfold extract_json_from_response
    rw [hdata, braceScan_spec _ _ _ ha hb]
    rfl
  · intro s hn
    unfold extract_json_from_response
    match hm : braceScan s.data with
    | some t => exact absurd (braceScan_some_decomp hm) hn
    | none => rfl

/-- C4 witness: the brace-extraction theorem applied at concrete
decompositions. -/
theorem brace_extraction_correct_witness :
    extract_json_from_response ("Sure! " ++ "\x7b" ++ "x" ++ "\x7d" ++ " bye") =
      .ok ("\x7b" ++ "x" ++ "\x7d") ∧
    extract_json_from_response "no json here" =
      .error (.valueError "No valid JSON object found in response") :=
  ⟨brace_extraction_correct.1 "Sure! " "x" " bye" (by decide) (by decide),
   brace_extraction_correct.2.2 "no json here" (by
     rintro ⟨u, v, w, h⟩
     have hm : lbrace ∈ "no json here".data := by
       rw [h]
       exact List.mem_append_right _ (List.mem_cons_self _ _)
     exact absurd hm (by decide))⟩

theorem beqJson_s_iff (v : JsonValue) (t : String) : beqJson v (.s t) = true ↔ v = .s t := by
  cases v <;> simp [beqJson]

theorem dictContains_exists {d : Dict} {k : String} (h : dictContains d k = true) :
    ∃ v, dictGet? d k = some v := by
  unfold dictContains at h
  exact Option.isSome_iff_exists.mp h

/-- C5: validation accepts exactly the mappings with the three required
keys and a language of exactly `English`/`Sinhala`, returning the mapping
unmodified, and fails with a `ValidationError` otherwise; in particular a
`French` language fails with the language `ValidationError`. -/
theorem metadata_validation_correct :
    (∀ res : JsonValue,
       (MetadataValid res → validate_metadata res = .ok res) ∧
       (¬ MetadataValid res → ∃ e, validate_metadata res = .error e ∧ IsValidationError e) ∧
       (∀ r, validate_metadata res = .ok r → r = res)) ∧
    validate_metadata (.obj [("line_count", .i 3), ("language", .s "French"),
        ("tags", .arr [.s "Motivation"])]) =
      .error (.valueError "Invalid language \x27French\x27 returned by LLM.") := by
  constructor
  · intro res
    refine ⟨?_, ?_, ?_⟩
    · rintro ⟨fields, rfl, h1, h2, h3, hl⟩
      have hgetd : dictGetD fields "language" .null = .s "English" ∨
          dictGetD fields "language" .null = .s "Sinhala" := by
        rcases hl with hl | hl <;> simp [dictGetD, hl]
      simp only [validate_metadata, h1, h2, h3, Bool.and_self, if_true]
      rcases hgetd with hg | hg <;> rw [hg] <;> rfl
    · intro hn
      cases res with
      | obj fields =>
        by_cases hk : (dictContains fields "line_count" && dictContains fields "language" &&
            dictContains fields "tags") = true
        · by_cases hlang : (beqJson (dictGetD fields "language" .null) (.s "English") ||
              beqJson (dictGetD fields "language" .null) (.s "Sinhala")) = true
          · exfalso
            apply hn
            have hk' := hk
            simp only [Bool.and_eq_true] at hk'
            obtain ⟨⟨hk1, hk2⟩, hk3⟩ := hk'
            obtain ⟨v, hv⟩ := dictContains_exists hk2
            have hgd : dictGetD fields "language" .null = v := by simp [dictGetD, hv]
            refine ⟨fields, rfl, hk1, hk2, hk3, ?_⟩
            rcases (Bool.or_eq_true _ _).mp hlang with h | h
            · exact Or.inl (by rw [hv, ← hgd, (beqJson_s_iff _ _).mp h])
            · exact Or.inr (by rw [hv, ← hgd, (beqJson_s_iff _ _).mp h])
          · refine ⟨_, ?_, Or.inr ⟨pyStr (dictGetD fields "language" .null), rfl⟩⟩
            simp only [validate_metadata, hk, if_true, hlang, if_false,
              Bool.not_eq_true] at *
            simp [validate_metadata, hk, hlang]
        · refine ⟨_, ?_, Or.inl rfl⟩
          simp [validate_metadata, hk]
      | null => exact ⟨_, rfl, Or.inl rfl⟩
      | b v => exact ⟨_, rfl, Or.inl rfl⟩
      | i v => exact ⟨_, rfl, Or.inl rfl⟩
      | s v => exact ⟨_, rfl, Or.inl rfl⟩
      | arr items => exact ⟨_, rfl, Or.inl rfl⟩
    · intro r hr
      cases res with
      | obj fields =>
        by_cases hk : (dictContains fields "line_count" && dictContains fields "language" &&
            dictContains fields "tags") = true
        · by_cases hlang : (beqJson (dictGetD fields "language" .null) (.s "English") ||
              beqJson (dictGetD fields "language" .null) (.s "Sinhala")) = true
          · simp only [validate_metadata, hk, hlang, if_true] at hr
            exact (Except.ok.injEq _ _ ▸ hr).symm
          · simp [validate_metadata, hk, hlang] at hr
        · simp [validate_metadata, hk] at hr
      | null => simp [validate_metadata] at hr
      | b v => simp [validate_metadata] at hr
      | i v => simp [validate_metadata] at hr
      | s v => simp [validate_metadata] at hr
      | arr items => simp [validate_metadata] at hr
  · rfl

/-- C5 witness: validation applied to a concrete valid mapping and a
concrete mapping missing `line_count`. -/
theorem metadata_validation_correct_witness :
    validate_metadata (.obj c5valid) = .ok (.obj c5valid) ∧
    (∃ e, validate_metadata (.obj [("language", .s "English")]) = .error e ∧
       IsValidationError e) :=
  ⟨(metadata_validation_correct.1 (.obj c5valid)).1
      ⟨c5valid, rfl, rfl, rfl, rfl, Or.inr rfl⟩,
   (metadata_validation_correct.1 (.obj [("language", .s "English")])).2.1 (by
     rintro ⟨fields, heq, hc1, _, _, _⟩
     injection heq with hf
     subst hf
     exact absurd hc1 (by decide))⟩

theorem dictGet_dictSet_ne (d : Dict) (key k : String) (v : JsonValue) (h : key ≠ k) :
    dictGet? (dictSet d key v) k = dictGet? d k := by
  induction d with
  | nil => simp [dictSet, dictGet?, h]
  | cons kv rest ih =>
    obtain ⟨k', v'⟩ := kv
    by_cases hk : k' = key
    · subst hk
      simp [dictSet, dictGet?, h]
    · by_cases hkk : k' = k
      · subst hkk
        simp [dictSet, dictGet?, hk, Ne.symm h]
      · simp [dictSet, hk, dictGet?, hkk, ih]

theorem dictGet_dictUpdate_notin (upd : Dict) (d : Dict) (k : String)
    (h : ∀ kv ∈ upd, kv.1 ≠ k) :
    dictGet? (dictUpdate d upd) k = dictGet? d k := by
  induction upd generalizing d with
  | nil => rfl
  | cons kv rest ih =>
    have step : dictUpdate d (kv :: rest) = dictUpdate (dictSet d kv.1 kv.2) rest := by
      simp [dictUpdate]
    rw [step, ih _ (fun x hx => h x (List.mem_cons_of_mem _ hx)),
      dictGet_dictSet_ne _ _ _ _ (h kv (List.mem_cons_self _ _))]

theorem rewrite_tags_post_preserves (cm : Dict) (post : Dict) (k : String) (hk : k ≠ "tags") :
    ∀ d, rewrite_tags_post cm post = .ok d → dictGet? d k = dictGet? post k := by
  intro d hd
  unfold rewrite_tags_post at hd
  revert hd
  cases h1 : pyIterate (dictGetD post "tags" (.arr [])) with
  | error e =>
    intro hd
    exact Except.noConfusion (show Except.error e = Except.ok d from hd)
  | ok items =>
    intro hd
    have hd' : (match rewrite_tags_fold cm items [] with
        | Except.error e => Except.error e
        | Except.ok newTags => Except.ok (dictSet post "tags" (JsonValue.arr newTags)))
        = Except.ok d := hd
    revert hd'
    cases h2 : rewrite_tags_fold cm items [] with
    | error e =>
      intro hd'
      exact Except.noConfusion (show Except.error e = Except.ok d from hd')
    | ok newTags =>
      intro hd'
      have hd2 : Except.ok (dictSet post "tags" (JsonValue.arr newTags)) = Except.ok d := hd'
      injection hd2 with hd3
      subst hd3
      exact dictGet_dictSet_ne _ _ _ _ (fun he => hk he.symm)

/-- C8 (amended): when the extracted metadata holds only the keys
`line_count`, `language` and `tags`, the merge step and the later tag
rewrite leave every field other than `text`, `line_count`, `language`
and `tags` unmodified. (The unamended claim fails: validation does not
forbid extra metadata keys, see the counterexample.) -/
theorem merge_preserves_other_fields (post : Dict) (ct : String) (cmd cm : Dict) (k : String)
    (hmd : ∀ kv ∈ cmd, kv.1 = "line_count" ∨ kv.1 = "language" ∨ kv.1 = "tags")
    (hk1 : k ≠ "text") (hk2 : k ≠ "line_count") (hk3 : k ≠ "language") (hk4 : k ≠ "tags") :
    dictGet? (merge_post post ct cmd) k = dictGet? post k ∧
    ∀ d, rewrite_tags_post cm (merge_post post ct cmd) = .ok d →
      dictGet? d k = dictGet? post k := by
  have hup : dictGet? (merge_post post ct cmd) k = dictGet? post k := by
    unfold merge_post
    rw [dictGet_dictUpdate_notin _ _ _ (fun kv hkv => by
      rcases hmd kv hkv with h | h | h <;> rw [h] <;> intro he
      · exact hk2 he.symm
      · exact hk3 he.symm
      · exact hk4 he.symm)]
    exact dictGet_dictSet_ne _ _ _ _ (fun he => hk1 he.symm)
  exact ⟨hup, fun d hd => (rewrite_tags_post_preserves cm _ k hk4 d hd).trans hup⟩

/-- C8 witness: the frame theorem applied to a concrete post with a
`note` field and a three-key metadata dict. -/
theorem merge_preserves_other_fields_witness :
    dictGet? (merge_post c8post "Hello" c8cmd) "note" = dictGet? c8post "note" ∧
    ∀ d, rewrite_tags_post [("Greetings", .s "Greetings")] (merge_post c8post "Hello" c8cmd)
        = .ok d → dictGet? d "note" = dictGet? c8post "note" :=
  merge_preserves_other_fields c8post "Hello" c8cmd [("Greetings", .s "Greetings")] "note"
    (by decide) (by decide) (by decide) (by decide) (by decide)

/-- C8 counterexample: with an extraction response that passes
validation but carries the extra key `note`, the surviving enriched post
disagrees with the original on the pass-through field `note`. -/
theorem merge_overwrites_extra_field :
    (process_posts llmE8 llmU8 [c8post]).2.map (fun ps => ps.map (fun d => dictGet? d "note"))
      = .ok [some (.s "clobbered")] ∧
    dictGet? c8post "note" = some (.s "original") ∧
    JsonValue.s "clobbered" ≠ JsonValue.s "original" :=
  ⟨rfl, rfl, by simp⟩

/-- C9 counterexample: `get_unified_tags` accepts the mapping
\x7b"A": "B", "B": "C"\x7d, whose value `"B"` is mapped by the pipeline's
lookup to `"C"`, not to itself: a TagMap produced by unify need not be
idempotent under application. -/
theorem unify_map_not_idempotent :
    get_unified_tags llmU9 [[("tags", .arr [.s "A"])]] = ([], .ok c9map) ∧
    JsonValue.s "B" ∈ c9map.map Prod.snd ∧
    tag_lookup c9map (.s "B") = .ok (.s "C") ∧
    JsonValue.s "C" ≠ JsonValue.s "B" :=
  ⟨rfl, by simp [c9map], rfl, by simp⟩

/-- C9 (amended): the pipeline's tag lookup (identity default) fixes
every tag outside the map's key set, and it fixes the map's whole value
set provided every value that is also a key maps to itself — a shape the
code does not enforce on the LLM-returned map. -/
theorem tagmap_lookup_identity (cm : Dict) :
    (∀ t : String, dictGet? cm t = none → tag_lookup cm (.s t) = .ok (.s t)) ∧
    ((∀ v : String, JsonValue.s v ∈ cm.map Prod.snd → ∀ r, dictGet? cm v = some r → r = .s v) →
      ∀ v : String, JsonValue.s v ∈ cm.map Prod.snd → tag_lookup cm (.s v) = .ok (.s v)) := by
  constructor
  · intro t h
    simp [tag_lookup, h]
  · intro hself v hv
    cases hr : dictGet? cm v with
    | none => simp [tag_lookup, hr]
    | some r => simp [tag_lookup, hr, hself v hv r hr]

/-- C9 witness: the lookup-identity theorem applied to a concrete
idempotent map and a tag outside its key set. -/
theorem tagmap_lookup_identity_witness :
    tag_lookup [("Drive", .s "Motivation"), ("Motivation", .s "Motivation")] (.s "Motivation")
      = .ok (.s "Motivation") ∧
    tag_lookup [("Drive", .s "Motivation"), ("Motivation", .s "Motivation")] (.s "Focus")
      = .ok (.s "Focus") :=
  ⟨(tagmap_lookup_identity [("Drive", .s "Motivation"), ("Motivation", .s "Motivation")]).2
      (by
        intro v hv r hr
        have hv' : JsonValue.s v ∈ [JsonValue.s "Motivation", JsonValue.s "Motivation"] := hv
        have hveq : v = "Motivation" := by
          rcases List.mem_cons.mp hv' with h | h
          · injection h
          · rcases List.mem_cons.mp h with h2 | h2
            · injection h2
            · cases h2
        subst hveq
        have : dictGet? [("Drive", JsonValue.s "Motivation"), ("Motivation", JsonValue.s "Motivation")]
            "Motivation" = some (.s "Motivation") := rfl
        rw [this] at hr
        injection hr with hr2
        exact hr2.symm)
      "Motivation" (by simp),
   (tagmap_lookup_identity [("Drive", .s "Motivation"), ("Motivation", .s "Motivation")]).1
      "Focus" rfl⟩

theorem processLoop_cons (llm : String → String) (i : Nat) (post : Dict) (rest : List Dict) :
    processLoop llm i (post :: rest) =
      match processOne llm i post with
      | (lg, .error e) => (lg, .error e)
      | (lg, .ok none) =>
        match processLoop llm (i + 1) rest with
        | (lgs, r) => (lg ++ lgs, r)
      | (lg, .ok (some d)) =>
        match processLoop llm (i + 1) rest with
        | (lgs, .error e) => (lg ++ lgs, .error e)
        | (lgs, .ok ds) => (lg ++ lgs, .ok (d :: ds)) := rfl

theorem processOne_skip (llm : String → String) (i : Nat) (post : Dict) (t : String)
    (lg : List LogEntry) (e : PyErr)
    (h1 : dictGet? post "text" = some (.s t))
    (h2 : processOneInner llm i post = (lg, .error e)) :
    processOne llm i post =
      (lg ++ [mkLog .err (errorEntryMsg i (String.mk (t.data.take 100)) e)], .ok none) := by
  unfold processOne
  rw [h2, h1]
  rfl

theorem processLoop_split (llm : String → String) (p : Dict) (lgE : List LogEntry)
    (l2 : List LogEntry) (d2 : List Dict) (suf : List Dict) :
    ∀ (pre : List Dict) (i0 : Nat) (l1 : List LogEntry) (d1 : List Dict),
      processLoop llm i0 pre = (l1, .ok d1) →
      processOne llm (i0 + pre.length) p = (lgE, .ok none) →
      processLoop llm (i0 + pre.length + 1) suf = (l2, .ok d2) →
      processLoop llm i0 (pre ++ p :: suf) = (l1 ++ (lgE ++ l2), .ok (d1 ++ d2)) := by
  intro pre
  induction pre with
  | nil =>
    intro i0 l1 d1 h3 hp h4
    have h3' : (([], Except.ok []) : List LogEntry × Except PyErr (List Dict))
        = (l1, .ok d1) := h3
    injection h3' with ha hb
    injection hb with hb2
    subst ha; subst hb2
    simp only [List.length_nil, Nat.add_zero] at hp h4
    simp only [List.nil_append]
    rw [processLoop_cons, hp, h4]
  | cons q pre ih =>
    intro i0 l1 d1 h3 hp h4
    rw [processLoop_cons] at h3
    simp only [List.length_cons] at hp h4
    rw [show i0 + (pre.length + 1) = i0 + 1 + pre.length by omega] at hp
    rw [show i0 + (pre.length + 1) + 1 = i0 + 1 + pre.length + 1 by omega] at h4
    revert h3
    cases hq : processOne llm i0 q with
    | mk lgq rq =>
      cases rq with
      | error e =>
        intro h3
        have h3' : ((lgq, Except.error e) : List LogEntry × Except PyErr (List Dict))
            = (l1, .ok d1) := h3
        injection h3' with ha hb
        exact absurd hb (by simp)
      | ok ro =>
        cases ro with
        | none =>
          intro h3
          revert h3
          cases hrec : processLoop llm (i0 + 1) pre with
          | mk lgs r =>
            intro h3
            have h3' : ((lgq ++ lgs, r) : List LogEntry × Except PyErr (List Dict))
                = (l1, .ok d1) := h3
            injection h3' with ha hb
            subst ha
            have hnext := ih (i0 + 1) lgs d1 (by rw [hrec, hb]) hp h4
            rw [List.cons_append, processLoop_cons, hq, hnext]
            simp [List.append_assoc]
        | some d =>
          intro h3
          revert h3
          cases hrec : processLoop llm (i0 + 1) pre with
          | mk lgs r =>
            cases r with
            | error e =>
              intro h3
              have h3' : ((lgq ++ lgs, Except.error e) :
                  List LogEntry × Except PyErr (List Dict)) = (l1, .ok d1) := h3
              injection h3' with ha hb
              exact absurd hb (by simp)
            | ok ds =>
              intro h3
              have h3' : ((lgq ++ lgs, Except.ok (d :: ds)) :
                  List LogEntry × Except PyErr (List Dict)) = (l1, .ok d1) := h3
              injection h3' with ha hb
              injection hb with hb2
              subst ha
              subst hb2
              have hnext := ih (i0 + 1) lgs ds (by rw [hrec]) hp h4
              rw [List.cons_append, processLoop_cons, hq, hnext]
              simp [List.append_assoc]

theorem process_posts_full (llmE llmU : String → String) (posts : List Dict)
    (L ulogs : List LogEntry) (ds finalPosts : List Dict) (m : Dict)
    (hloop : processLoop llmE 0 posts = (L, .ok ds))
    (hne : ds ≠ [])
    (hu : get_unified_tags llmU ds = (ulogs, .ok m))
    (hm : mapExceptDict (rewrite_tags_post (clean_metadata m)) ds = .ok finalPosts) :
    process_posts llmE llmU posts = (L ++ ulogs, .ok finalPosts) := by
  have hempty : ds.isEmpty = false := by
    cases ds with
    | nil => exact absurd rfl hne
    | cons a l => rfl
  unfold process_posts
  rw [hloop]
  simp only []
  rw [hempty]
  simp only [Bool.false_eq_true, if_false]
  rw [hu]
  simp only []
  rw [hm]

theorem mapExceptDict_ok_length (f : Dict → Except PyErr Dict) :
    ∀ (l l' : List Dict), mapExceptDict f l = .ok l' → l'.length = l.length := by
  intro l
  induction l with
  | nil =>
    intro l' h
    have h' : (Except.ok [] : Except PyErr (List Dict)) = .ok l' := h
    injection h' with h2
    subst h2
    rfl
  | cons d rest ih =>
    intro l' h
    unfold mapExceptDict at h
    revert h
    cases hf : f d with
    | error e =>
      intro h
      exact Except.noConfusion (show Except.error e = Except.ok l' from h)
    | ok d2 =>
      intro h
      have h' : (match mapExceptDict f rest with
          | Except.error e => Except.error e
          | Except.ok rest2 => Except.ok (d2 :: rest2)) = Except.ok l' := h
      revert h'
      cases hrec : mapExceptDict f rest with
      | error e =>
        intro h'
        exact Except.noConfusion (show Except.error e = Except.ok l' from h')
      | ok rest2 =>
        intro h'
        have h2 : Except.ok (d2 :: rest2) = Except.ok l' := h'
        injection h2 with h3
        subst h3
        simp [ih rest2 hrec]

theorem isPrefixOf_append_same (x y z : List Char) :
    List.isPrefixOf (x ++ y) (x ++ z) = List.isPrefixOf y z := by
  induction x with
  | nil => rfl
  | cons a t ih => simp [List.isPrefixOf, ih]

theorem referencesIdx_entry (k : Nat) (ex : String) (e : PyErr) :
    referencesIdx k (mkLog .err (errorEntryMsg k ex e)) = true := by
  simp only [referencesIdx, isErrorLog, mkLog, errorEntryMsg, beq_self_eq_true, Bool.true_and]
  have h1 : ("Error processing post " ++ Nat.repr k ++ ":").data
      = ("Error processing post " ++ Nat.repr k).data ++ [':'] := by
    rw [strData_append]
  have h2 : ("Error processing post " ++ Nat.repr k ++ ": " ++ ex ++ "... | Error: "
        ++ pyStrErr e).data
      = ("Error processing post " ++ Nat.repr k).data
        ++ (':' :: ' ' :: (ex.data ++ ("... | Error: ".data ++ (pyStrErr e).data))) := by
    simp [strData_append, List.append_assoc]
  rw [h1, h2, isPrefixOf_append_same]
  rfl

theorem countP_zero_of_isError_zero {l : List LogEntry} {k : Nat}
    (h : l.countP isErrorLog = 0) : l.countP (referencesIdx k) = 0 := by
  have hle := List.countP_mono_left (l := l) (p := referencesIdx k) (q := isErrorLog)
    (fun a _ ha => ((Bool.and_eq_true _ _).mp ha).1)
  omega

/-- C2: for any batch, when the post at index `pre.length` has a string
`text` field and its per-post processing body fails with any exception
(a failure in cleaning, extraction, metadata cleaning or merging), that
failure is logged as the per-post error record carrying the index and the
100-character text excerpt, the post is skipped, and the surrounding
posts are still processed: the run succeeds with exactly the survivors
of the rest of the batch, and (when no other post logs an error) exactly
one logged error references that index. -/
theorem partial_failure_isolation
    (llmE llmU : String → String) (pre suf : List Dict) (p : Dict) (t : String)
    (e : PyErr) (lg l1 l2 : List LogEntry) (d1 d2 : List Dict) (m : Dict)
    (finalPosts : List Dict)
    (h1 : dictGet? p "text" = some (.s t))
    (h2 : processOneInner llmE pre.length p = (lg, .error e))
    (h3 : processLoop llmE 0 pre = (l1, .ok d1))
    (h4 : processLoop llmE (pre.length + 1) suf = (l2, .ok d2))
    (h5 : d1 ++ d2 ≠ [])
    (h6 : l1.countP isErrorLog = 0)
    (h7 : l2.countP isErrorLog = 0)
    (h8 : lg.countP (referencesIdx pre.length) = 0)
    (h9 : get_unified_tags llmU (d1 ++ d2) = ([], .ok m))
    (h10 : mapExceptDict (rewrite_tags_post (clean_metadata m)) (d1 ++ d2) = .ok finalPosts) :
    process_posts llmE llmU (pre ++ p :: suf)
      = (l1 ++ ((lg ++ [mkLog .err
            (errorEntryMsg pre.length (String.mk (t.data.take 100)) e)]) ++ l2),
         .ok finalPosts)
    ∧ finalPosts.length = d1.length + d2.length
    ∧ (l1 ++ ((lg ++ [mkLog .err
          (errorEntryMsg pre.length (String.mk (t.data.take 100)) e)]) ++ l2)).countP
        (referencesIdx pre.length) = 1 := by
  have hskip := processOne_skip llmE pre.length p t lg e h1 h2
  have hloop := processLoop_split llmE p
    (lg ++ [mkLog .err (errorEntryMsg pre.length (String.mk (t.data.take 100)) e)])
    l2 d2 suf pre 0 l1 d1 h3
    (by rw [Nat.zero_add]; exact hskip)
    (by rw [Nat.zero_add]; exact h4)
  have hmain := process_posts_full llmE llmU (pre ++ p :: suf)
    (l1 ++ ((lg ++ [mkLog .err (errorEntryMsg pre.length (String.mk (t.data.take 100)) e)]) ++ l2))
    [] (d1 ++ d2) finalPosts m hloop h5 h9 h10
  refine ⟨?_, ?_, ?_⟩
  · rw [hmain]
    simp
  · have := mapExceptDict_ok_length _ _ _ h10
    simpa [List.length_append] using this
  · simp [List.countP_append, countP_zero_of_isError_zero h6, countP_zero_of_isError_zero h7,
      h8, List.countP_cons, referencesIdx_entry]

set_option maxRecDepth 16000 in
/-- C2 witness: the concrete batch of 5 posts whose post at index 3
fails during extraction yields an enriched corpus of 4 posts and exactly
one logged error referencing index 3. -/
theorem partial_failure_isolation_witness :
    ∃ (L : List LogEntry) (finalPosts : List Dict),
      process_posts llmE2 llmU2 (c2pre ++ c2p :: c2suf) = (L, .ok finalPosts) ∧
      finalPosts.length = 4 ∧ L.countP (referencesIdx 3) = 1 := by
  obtain ⟨hmain, hlen, hcount⟩ := partial_failure_isolation llmE2 llmU2 c2pre c2suf c2p
    "Post three"
    (.exception "Error extracting metadata: No valid JSON object found in response")
    c2lg c2l1 c2l2 c2d1 c2d2 c2m (c2d1 ++ c2d2)
    rfl rfl rfl rfl (by simp [c2d1, c2d2, enrichedPost]) rfl rfl rfl rfl rfl
  exact ⟨_, _, hmain, hlen, hcount⟩
